import Mathlib

/-
Verification of the LoRaWAN codec (src/backend/src/lorawan_codec.rs).

Bytes are modelled as `Nat` (with `% 2 ^ w` applied exactly where the Rust
code wraps).  External crate primitives (the AES-128 block cipher from the
`aes` crate, HMAC-SHA256 from `hmac`/`sha2`, base64 and hex codecs) are
modelled abstractly: a `Crypto` record carries the single-block decryptor and
the HMAC oracle for the fixed key/token, and `decode_frame` takes the
already-base64-decoded ciphertext bytes.  Everything written in the
repository itself (padding, the CBC chain, candidate construction, the
layout/score scan, frame parsing, downlink building, the location projector)
is translated function by function.
-/

namespace LorawanCodec

/-- Folded 16-bit checksum (`checksum16` in lorawan_codec.rs): sum all bytes
into a wrapping 32-bit accumulator, fold the upper 16 bits into the lower 16
bits twice, return the low 16 bits. -/
def checksum16 (data : List Nat) : Nat :=
  let sum0 := data.foldl (fun s b => (s + b) % 4294967296) 0
  let sum1 := (sum0 >>> 16) + (sum0 &&& 0xffff)
  let sum2 := sum1 + (sum1 >>> 16)
  sum2 &&& 0xffff

/-- Function `pkcs7_unpad` from lorawan_codec.rs: read the last byte as the pad count,
reject empty input, pad `0`, pad `> 16`, pad longer than the buffer, or a
trailing block whose bytes do not all equal the pad count; otherwise drop the
final `pad` bytes. -/
def pkcs7_unpad (data : List Nat) : Option (List Nat) :=
  if data.isEmpty then none
  else
    let pad := data.getLast?.getD 0
    if pad = 0 ∨ pad > 16 ∨ pad > data.length then none
    else if (data.drop (data.length - pad)).all (fun b => b == pad) then
      some (data.take (data.length - pad))
    else none

/-- Function `pkcs7_pad` from lorawan_codec.rs: append `16 - (len % 16)` bytes, each
equal to that count. -/
def pkcs7_pad (data : List Nat) : List Nat :=
  data ++ List.replicate (16 - data.length % 16) (16 - data.length % 16)

theorem getLast?_replicate_succ (n : Nat) (a : Nat) :
    (List.replicate (n + 1) a).getLast? = some a := by
  rw [List.getLast?_eq_getLast_of_ne_nil (by simp)]
  exact congrArg some (List.getLast_replicate_succ n a)

theorem pkcs7_pad_eq (data : List Nat) :
    pkcs7_pad data =
      data ++ List.replicate (16 - data.length % 16) (16 - data.length % 16) := rfl

/-- Claim C7: PKCS7 unpad inverts PKCS7 pad on every byte vector, and the pad
always adds between 1 and 16 bytes. -/
theorem claim_C7 (x : List Nat) :
    pkcs7_unpad (pkcs7_pad x) = some x ∧
    x.length + 1 ≤ (pkcs7_pad x).length ∧ (pkcs7_pad x).length ≤ x.length + 16 := by
  have hlt : x.length % 16 < 16 := Nat.mod_lt _ (by omega)
  set p := 16 - x.length % 16 with hp
  have hp1 : 1 ≤ p := by omega
  have hp16 : p ≤ 16 := by omega
  obtain ⟨k, hk⟩ : ∃ k, p = k + 1 := ⟨p - 1, by omega⟩
  have hlen : (pkcs7_pad x).length = x.length + p := by
    simp [pkcs7_pad, List.length_append, List.length_replicate]
  refine ⟨?_, by omega, by omega⟩
  have hlast : (pkcs7_pad x).getLast? = some p := by
    rw [pkcs7_pad_eq, ← hp,
      List.getLast?_append_of_ne_nil _ (by rw [hk]; simp), hk]
    exact getLast?_replicate_succ k (k + 1)
  have hne : ¬((pkcs7_pad x).isEmpty = true) := by
    simp only [List.isEmpty_iff]
    intro hcontra
    have := congrArg List.length hcontra
    rw [hlen] at this
    simp at this
    omega
  unfold pkcs7_unpad
  rw [if_neg hne]
  simp only [hlast, Option.getD_some]
  rw [if_neg (by omega)]
  have hsub : (pkcs7_pad x).length - p = x.length := by omega
  rw [hsub, pkcs7_pad_eq, ← hp, List.drop_left, List.take_left]
  rw [if_pos]
  simp only [List.all_eq_true, List.mem_replicate]
  intro b hb
  simp [hb.2]

/-- Claim C8: `checksum16` on the two documented examples, and its result
always fits in 16 bits. -/
theorem claim_C8 :
    checksum16 [0x00] = 0x0000 ∧ checksum16 [0xFF, 0x01] = 0x0100 ∧
    ∀ data : List Nat, checksum16 data < 65536 := by
  refine ⟨by decide, by decide, ?_⟩
  intro data
  have h : checksum16 data ≤ 0xffff := Nat.and_le_right
  omega

/-- The message-type-specific part of `buffer_explained`'s `Data Content`
node.  `hexBlob` is the unstructured case (`Value::String(hex::encode(..))`
in the source); the structured cases keep the full content bytes — every
named sub-field of the JSON object (`Device ID`, `Major`, ...) is the hex
encoding of a fixed slice of these bytes, recovered by slicing below exactly
where the source re-decodes the hex. -/
inductive DataContent where
  | hexBlob (bytes : List Nat)
  | mt01 (full : List Nat)
  | mt05 (full : List Nat)
  | mt03 (full : List Nat)
deriving DecidableEq

/-- Structure `DecodedFrame` from lorawan_codec.rs.  The header fields of
`buffer_explained` (`Frame Header`, `CRC Check`, ...) are hex encodings of
fixed slices of `raw_payload` and are consumed nowhere downstream, so only
the `Data Content` node is kept structurally. -/
structure DecodedFrame where
  raw_payload : List Nat
  message_type : Nat
  data_content : DataContent
  new_buffer_response : Option (List Nat)
deriving DecidableEq

/-- Content bytes of a payload (`&payload[7..payload.len()-4]` in the
source): everything between byte 7 and the 4-byte CRC/frame-end trailer. -/
def contentOf (payload : List Nat) : List Nat :=
  (payload.take (payload.length - 4)).drop 7

/-- Function `parse_payload_into_df` from lorawan_codec.rs (the inner helper of
`decode_frame`): split the fixed header/trailer, optionally reject unknown
message types, dispatch per message type with the per-type minimum content
lengths (10 / 13 / 9), and synthesize the 12-byte registration-ack buffer
for type 0x01.  The ack buffer is built from the `Full Byte` hex field of
`Data Content`, which the JSON tree carries exactly when the structured
type-0x01 branch ran, i.e. when the content is at least 10 bytes. -/
def parse_payload_into_df (payload : List Nat) (require_valid_msg : Bool) :
    Option DecodedFrame :=
  if payload.length < 11 then none
  else if require_valid_msg &&
      !(payload.getD 6 0 == 0x01 || payload.getD 6 0 == 0x03 ||
        payload.getD 6 0 == 0x05) then none
  else
    some { raw_payload := payload
         , message_type := payload.getD 6 0
         , data_content :=
             if payload.getD 6 0 = 0x01 then
               if (contentOf payload).length < 10 then .hexBlob (contentOf payload)
               else .mt01 (contentOf payload)
             else if payload.getD 6 0 = 0x05 then
               if (contentOf payload).length < 13 then .hexBlob (contentOf payload)
               else .mt05 (contentOf payload)
             else if payload.getD 6 0 = 0x03 then
               if (contentOf payload).length < 9 then .hexBlob (contentOf payload)
               else .mt03 (contentOf payload)
             else .hexBlob (contentOf payload)
         , new_buffer_response :=
             if payload.getD 6 0 = 0x01 ∧ 10 ≤ (contentOf payload).length then
               some ((contentOf payload).take 4 ++ [0x01] ++
                 ((contentOf payload).drop 4).take 2 ++ [0x00, 0x01, 0x01, 0x00, 0x00])
             else none }

/-- Function `build_downlink_hex` from lorawan_codec.rs: header ‖ equipment ‖ message
number ‖ `0x00` ‖ `0x02` ‖ registration-ack buffer ‖ big-endian
`checksum16 (0x02 ‖ ack)` ‖ original frame end. -/
def build_downlink_hex (df : DecodedFrame) : Option (List Nat) :=
  match df.new_buffer_response with
  | none => none
  | some new_resp =>
    if df.raw_payload.length < 11 then none
    else
      let crc := checksum16 (0x02 :: new_resp)
      some (df.raw_payload.take 2 ++ (df.raw_payload.drop 2).take 1 ++
        (df.raw_payload.drop 3).take 2 ++ [0x00, 0x02] ++ new_resp ++
        [(crc >>> 8) % 256, crc &&& 0xFF] ++
        df.raw_payload.drop (df.raw_payload.length - 2))

theorem contentOf_length {payload : List Nat} (h : 11 ≤ payload.length) :
    (contentOf payload).length = payload.length - 11 := by
  simp only [contentOf, List.length_drop, List.length_take]
  omega

/-- An 11-byte type-0x01 payload: header FFEE, equipment 51, message number
0030, ack 00, type 01, empty content, CRC 0000, end EEFF. -/
def shortRegPayload : List Nat :=
  [0xFF, 0xEE, 0x51, 0x00, 0x30, 0x00, 0x01, 0x00, 0x00, 0xEE, 0xFF]

/-- Claim C1, counterexample: a registration payload whose content (0 bytes)
is below the 10-byte minimum still parses successfully under the strict
policy (`require_valid_msg = true`) — the content is kept as an unstructured
hex blob instead of being rejected as a hard parse error. -/
theorem claim_C1_counterexample :
    parse_payload_into_df shortRegPayload true =
      some { raw_payload := shortRegPayload, message_type := 0x01,
             data_content := .hexBlob [], new_buffer_response := none } := by
  decide

/-- Claim C1, amended: for every payload with a known message type and
content shorter than the type-specific minimum, parsing succeeds under both
the strict and the lenient policy, storing the content as an unstructured
hex blob (and, for type 0x01, synthesizing no registration ack); the content
is never partially parsed.  (Strict policy rejects only unknown message
types, not short content.) -/
theorem claim_C1 (payload : List Nat) (rv : Bool) (hlen : 11 ≤ payload.length)
    (hshort : (payload.getD 6 0 = 0x01 ∧ (contentOf payload).length < 10) ∨
      (payload.getD 6 0 = 0x05 ∧ (contentOf payload).length < 13) ∨
      (payload.getD 6 0 = 0x03 ∧ (contentOf payload).length < 9)) :
    parse_payload_into_df payload rv =
      some { raw_payload := payload, message_type := payload.getD 6 0,
             data_content := .hexBlob (contentOf payload),
             new_buffer_response := none } := by
  unfold parse_payload_into_df
  rw [if_neg (by omega)]
  rcases hshort with ⟨hmt, hc⟩ | ⟨hmt, hc⟩ | ⟨hmt, hc⟩ <;> rw [hmt]
  · rw [if_neg (by simp), if_pos rfl, if_pos hc, if_neg (by omega)]
  · rw [if_neg (by simp), if_neg (by omega), if_pos rfl, if_pos hc,
      if_neg (by omega)]
  · rw [if_neg (by simp), if_neg (by omega), if_neg (by omega), if_pos rfl,
      if_pos hc, if_neg (by omega)]

/-- Claim C1, witness: the amended statement applied to the concrete 11-byte
registration payload under the strict policy. -/
theorem claim_C1_witness :
    parse_payload_into_df shortRegPayload true =
      some { raw_payload := shortRegPayload, message_type := shortRegPayload.getD 6 0,
             data_content := .hexBlob (contentOf shortRegPayload),
             new_buffer_response := none } :=
  claim_C1 shortRegPayload true (by decide) (Or.inl ⟨by decide, by decide⟩)

/-- The 12-byte registration-ack buffer synthesized from type-0x01 content:
device id (4 bytes) ‖ `0x01` ‖ version/type (2 bytes) ‖ fixed 5-byte
suffix. -/
def regAck (dc : List Nat) : List Nat :=
  dc.take 4 ++ [0x01] ++ (dc.drop 4).take 2 ++ [0x00, 0x01, 0x01, 0x00, 0x00]

theorem and_255_eq_mod (x : Nat) : x &&& 0xFF = x % 256 := by
  have h := Nat.and_pow_two_sub_one_eq_mod x 8
  norm_num at h
  exact h

theorem shiftRight8_eq_div (x : Nat) : x >>> 8 = x / 256 := by
  have h := Nat.shiftRight_eq_div_pow x 8
  norm_num at h
  exact h

theorem checksum16_lt (data : List Nat) : checksum16 data < 65536 := by
  have h : checksum16 data ≤ 0xffff := Nat.and_le_right
  omega

/-- Claim C6: a decoded registration frame with at least 10 content bytes
yields exactly the 12-byte ack buffer, and `build_downlink_hex` emits
header ‖ equipment ‖ message number ‖ `0x00` ‖ `0x02` ‖ ack ‖ big-endian
`checksum16 (0x02 ‖ ack)` ‖ original frame end. -/
theorem claim_C6 (payload : List Nat) (rv : Bool) (hlen : 21 ≤ payload.length)
    (hmt : payload.getD 6 0 = 0x01) :
    ∃ df, parse_payload_into_df payload rv = some df ∧
      df.new_buffer_response = some (regAck (contentOf payload)) ∧
      (regAck (contentOf payload)).length = 12 ∧
      build_downlink_hex df =
        some (payload.take 2 ++ (payload.drop 2).take 1 ++
          (payload.drop 3).take 2 ++ [0x00, 0x02] ++ regAck (contentOf payload) ++
          [checksum16 (0x02 :: regAck (contentOf payload)) / 256,
           checksum16 (0x02 :: regAck (contentOf payload)) % 256] ++
          payload.drop (payload.length - 2)) := by
  have hclen : (contentOf payload).length = payload.length - 11 :=
    contentOf_length (by omega)
  have hc10 : 10 ≤ (contentOf payload).length := by omega
  have hparse : parse_payload_into_df payload rv =
      some { raw_payload := payload, message_type := 0x01,
             data_content := .mt01 (contentOf payload),
             new_buffer_response := some (regAck (contentOf payload)) } := by
    unfold parse_payload_into_df
    rw [if_neg (by omega), hmt, if_neg (by simp), if_pos rfl, if_neg (by omega),
      if_pos ⟨rfl, hc10⟩]
    rfl
  refine ⟨_, hparse, rfl, ?_, ?_⟩
  · simp only [regAck, List.length_append, List.length_take, List.length_drop,
      List.length_cons, List.length_nil]
    omega
  · unfold build_downlink_hex
    simp only
    rw [if_neg (by simp; omega)]
    have hcrc := checksum16_lt (0x02 :: regAck (contentOf payload))
    rw [shiftRight8_eq_div, and_255_eq_mod,
      Nat.mod_eq_of_lt (by omega : checksum16 (0x02 :: regAck (contentOf payload)) / 256 < 256)]

/-- A concrete 21-byte registration payload: header FFEE, equipment 51,
message number 0030, ack 00, type 01, content
DEADBEEF‖1234‖00000000, CRC 0000, end EEFF. -/
def regPayload21 : List Nat :=
  [0xFF, 0xEE, 0x51, 0x00, 0x30, 0x00, 0x01,
   0xDE, 0xAD, 0xBE, 0xEF, 0x12, 0x34, 0x00, 0x00, 0x00, 0x00,
   0x00, 0x00, 0xEE, 0xFF]

/-- Claim C6, witness: the theorem applied to the concrete 21-byte
registration payload. -/
theorem claim_C6_witness :
    ∃ df, parse_payload_into_df regPayload21 true = some df ∧
      df.new_buffer_response = some (regAck (contentOf regPayload21)) ∧
      (regAck (contentOf regPayload21)).length = 12 ∧
      build_downlink_hex df =
        some (regPayload21.take 2 ++ (regPayload21.drop 2).take 1 ++
          (regPayload21.drop 3).take 2 ++ [0x00, 0x02] ++
          regAck (contentOf regPayload21) ++
          [checksum16 (0x02 :: regAck (contentOf regPayload21)) / 256,
           checksum16 (0x02 :: regAck (contentOf regPayload21)) % 256] ++
          regPayload21.drop (regPayload21.length - 2)) :=
  claim_C6 regPayload21 true (by decide) (by decide)

/-- Abstract cryptographic primitives (external crates).  `decBlock` is the
AES-128 single-block decryptor under the fixed ciphertext key (`aes` crate);
`hmac` is HMAC-SHA256 over the payload bytes under the fixed sign token
(`hmac`/`sha2` crates; `hmac_sha256_hex` hex-encodes the payload and decodes
it again, so the digest is a function of the payload bytes; it returns
`none` exactly when the token hex string fails to decode); `tokenEmpty`
records whether the sign-token string is empty. -/
structure Crypto where
  decBlock : List Nat → List Nat
  hmac : List Nat → Option (List Nat)
  tokenEmpty : Bool

/-- ECB: decrypt the ciphertext 16 bytes at a time (the
`for (i, chunk) in ct.chunks(16).enumerate()` loop writing
`out[i*16..(i+1)*16]`, shared by `aes_ecb_decrypt` and
`aes_ecb_decrypt_no_unpad`; callers guarantee the length is a multiple of
16). -/
def ecbChunks (decBlock : List Nat → List Nat) (ct : List Nat) : List Nat :=
  ((List.range (ct.length / 16)).map
    (fun i => decBlock ((ct.drop (16 * i)).take 16))).flatten

/-- CBC: decrypt block `i` and XOR it with the previous ciphertext block
(the IV for block 0), exactly as the manual loop in `aes_cbc_decrypt` that
keeps `prev` equal to the preceding ciphertext chunk. -/
def cbcChunks (decBlock : List Nat → List Nat) (iv ct : List Nat) : List Nat :=
  ((List.range (ct.length / 16)).map (fun i =>
    List.zipWith (fun a b => a ^^^ b) (decBlock ((ct.drop (16 * i)).take 16))
      (if i = 0 then iv else (ct.drop (16 * (i - 1))).take 16))).flatten

/-- Function `aes_ecb_decrypt`: AES-128-ECB + PKCS7 unpad (the primary uplink mode).
`ct` is the already-base64-decoded ciphertext. -/
def aes_ecb_decrypt (C : Crypto) (ct : List Nat) : Option (List Nat) :=
  if ct.length % 16 ≠ 0 then none
  else pkcs7_unpad (ecbChunks C.decBlock ct)

/-- Function `aes_ecb_decrypt_no_unpad`: AES-128-ECB without PKCS7 unpadding (the
fallback for firmware that skips padding). -/
def aes_ecb_decrypt_no_unpad (C : Crypto) (ct : List Nat) : Option (List Nat) :=
  if ct.length % 16 ≠ 0 then none
  else some (ecbChunks C.decBlock ct)

/-- Function `aes_cbc_decrypt`: AES-128-CBC with the IV either taken from the first
16 ciphertext bytes (`ivFromCt = true`, the source's `"prefix"` mode) or all
zero (`"zero"` mode), with and without PKCS7 unpadding. -/
def aes_cbc_decrypt (C : Crypto) (ct_all : List Nat) (ivFromCt : Bool)
    (do_unpad : Bool) : Option (List Nat) :=
  if ct_all.length < 16 then none
  else if ivFromCt then
    if ct_all.length < 32 then none
    else if (ct_all.drop 16).length % 16 ≠ 0 then none
    else if do_unpad then pkcs7_unpad (cbcChunks C.decBlock (ct_all.take 16) (ct_all.drop 16))
    else some (cbcChunks C.decBlock (ct_all.take 16) (ct_all.drop 16))
  else
    if ct_all.length % 16 ≠ 0 then none
    else if do_unpad then pkcs7_unpad (cbcChunks C.decBlock (List.replicate 16 0) ct_all)
    else some (cbcChunks C.decBlock (List.replicate 16 0) ct_all)

/-- The decryption-mode tags of `decode_frame`'s candidate list, in source
spelling: `ecb-pkcs7`, `ecb-raw`, `cbc-pkcs7:prefix`, `cbc-pkcs7:zero`,
`cbc-raw:prefix`, `cbc-raw:zero` (the `IvCt` constructors are the source's
IV-from-ciphertext `"prefix"` mode, `IvZero` the all-zero-IV mode). -/
inductive DecMode where
  | ecbPkcs7
  | ecbRaw
  | cbcPkcs7IvCt
  | cbcPkcs7IvZero
  | cbcRawIvCt
  | cbcRawIvZero
deriving DecidableEq

/-- The three environment flags read at the top of `decode_frame`:
`LORA_DECODE_FALLBACK`, `LORA_TRY_CBC`, `LORA_ALLOW_HMAC_MISMATCH`. -/
structure DecodeCfg where
  allow_fallback : Bool
  try_cbc : Bool
  allow_hmac_mismatch : Bool
deriving DecidableEq

def optCand (m : DecMode) : Option (List Nat) → List (DecMode × List Nat)
  | some pt => [(m, pt)]
  | none => []

/-- The candidate-construction phase of `decode_frame`: the primary
ECB+PKCS7 mode, the ECB-raw retry inside the primary's error branch (only
when the fallback flag is on), and — when the CBC flag is on — the four CBC
variants in source order. -/
def buildCandidates (cfg : DecodeCfg) (C : Crypto) (ct : List Nat) :
    List (DecMode × List Nat) :=
  (match aes_ecb_decrypt C ct with
   | some pt => [(DecMode.ecbPkcs7, pt)]
   | none =>
     if cfg.allow_fallback then
       optCand DecMode.ecbRaw (aes_ecb_decrypt_no_unpad C ct)
     else []) ++
  (if cfg.try_cbc then
     optCand DecMode.cbcPkcs7IvCt (aes_cbc_decrypt C ct true true) ++
     optCand DecMode.cbcPkcs7IvZero (aes_cbc_decrypt C ct false true) ++
     optCand DecMode.cbcRawIvCt (aes_cbc_decrypt C ct true false) ++
     optCand DecMode.cbcRawIvZero (aes_cbc_decrypt C ct false false)
   else [])

/-- The fixed signature layouts `(sig_len, sig_first)` in source order:
`sig32_first`, `sig32_last`, `sig16_first`, `sig16_last`. -/
def layouts : List (Nat × Bool) := [(32, true), (32, false), (16, true), (16, false)]

/-- The score assigned to a successfully parsed `(candidate, layout)` pair:
2 for HMAC match plus known message type, 1 for known type with the
mismatch-tolerance flag or for HMAC match alone, 0 otherwise. -/
def scoreOf (cfg : DecodeCfg) (hmac_ok valid_msg : Bool) : Int :=
  if hmac_ok && valid_msg then 2
  else if valid_msg && cfg.allow_hmac_mismatch then 1
  else if hmac_ok then 1
  else 0

/-- One `(candidate, layout)` attempt inside `decode_frame`'s scan: skip if
the plaintext is shorter than `sig_len + 11`; split into signature and
payload; compute `hmac_ok` (always false for an empty token); parse the
payload (requiring a known message type exactly when fallback or CBC
recovery is active) and score the parsed frame. -/
def tryPair (cfg : DecodeCfg) (C : Crypto) (pt : List Nat) (sig_len : Nat)
    (sig_first : Bool) : Option (DecodedFrame × Int) :=
  if pt.length < sig_len + 11 then none
  else
    let sig := if sig_first then pt.take sig_len else pt.drop (pt.length - sig_len)
    let payload := if sig_first then pt.drop sig_len else pt.take (pt.length - sig_len)
    let hmac_ok : Bool :=
      if C.tokenEmpty then false
      else
        match C.hmac payload with
        | some mac => decide (sig_len ≤ mac.length) && (mac.take sig_len == sig)
        | none => false
    match parse_payload_into_df payload (cfg.allow_fallback || cfg.try_cbc) with
    | some df =>
      some (df, scoreOf cfg hmac_ok
        (df.message_type == 0x01 || df.message_type == 0x03 || df.message_type == 0x05))
    | none => none

/-- The inner layout loop of `decode_frame`: update the best pair on a
strictly greater score, breaking out as soon as a score of 2 is recorded. -/
def scanLayouts (cfg : DecodeCfg) (C : Crypto) (pt : List Nat) :
    List (Nat × Bool) → Option DecodedFrame × Int → Option DecodedFrame × Int
  | [], best => best
  | l :: rest, best =>
    match tryPair cfg C pt l.1 l.2 with
    | none => scanLayouts cfg C pt rest best
    | some (df, score) =>
      if best.2 < score then
        if score = 2 then (some df, score)
        else scanLayouts cfg C pt rest (some df, score)
      else scanLayouts cfg C pt rest best

/-- The outer candidate loop of `decode_frame`: run the layout loop per
candidate, stopping as soon as the best score reaches 2. -/
def scanCandidates (cfg : DecodeCfg) (C : Crypto) :
    List (DecMode × List Nat) → Option DecodedFrame × Int → Option DecodedFrame × Int
  | [], best => best
  | c :: rest, best =>
    let best2 := scanLayouts cfg C c.2 layouts best
    if best2.2 = 2 then best2 else scanCandidates cfg C rest best2

/-- Function `decode_frame` from lorawan_codec.rs, over the already-base64-decoded
ciphertext bytes: build plaintext candidates, scan all (candidate, layout)
pairs tracking the best score (initially −1), and apply the final
acceptance policy. -/
def decode_frame (cfg : DecodeCfg) (C : Crypto) (ct : List Nat) :
    Except String DecodedFrame :=
  if (buildCandidates cfg C ct).isEmpty then Except.error "no decrypt candidates"
  else
    match (scanCandidates cfg C (buildCandidates cfg C ct) (none, -1)).1 with
    | some df =>
      if 1 ≤ (scanCandidates cfg C (buildCandidates cfg C ct) (none, -1)).2 then
        Except.ok df
      else if cfg.allow_hmac_mismatch then Except.ok df
      else Except.error "hmac_mismatch"
    | none => Except.error "no valid decode candidates"

/-- Specification-side view of the scan (from the claim's wording): the flat
list of all successfully parsed and scored `(candidate, layout)` pairs, in
candidate-then-layout order. -/
def scoredPairs (cfg : DecodeCfg) (C : Crypto) (cands : List (DecMode × List Nat)) :
    List (DecodedFrame × Int) :=
  (cands.map (fun c => layouts.filterMap (fun l => tryPair cfg C c.2 l.1 l.2))).flatten

/-- Specification-side selection: the first pair attaining the maximal
score (a later pair replaces the current choice only on a strictly greater
score). -/
def firstMax : List (DecodedFrame × Int) → Option (DecodedFrame × Int)
  | [] => none
  | p :: rest =>
    match firstMax rest with
    | none => some p
    | some q => if p.2 < q.2 then some q else some p

/-- One best-so-far update step, shared by the code-side scan and the
specification-side fold. -/
def stepBest (best : Option DecodedFrame × Int) (p : DecodedFrame × Int) :
    Option DecodedFrame × Int :=
  if best.2 < p.2 then (some p.1, p.2) else best

theorem scoreOf_bounds (cfg : DecodeCfg) (h v : Bool) :
    0 ≤ scoreOf cfg h v ∧ scoreOf cfg h v ≤ 2 := by
  unfold scoreOf
  split_ifs <;> omega

theorem tryPair_score {cfg : DecodeCfg} {C : Crypto} {pt : List Nat}
    {sl : Nat} {sf : Bool} {df : DecodedFrame} {s : Int}
    (h : tryPair cfg C pt sl sf = some (df, s)) : 0 ≤ s ∧ s ≤ 2 := by
  simp only [tryPair] at h
  split at h
  · exact absurd h (by simp)
  · split at h
    · rw [Option.some.injEq, Prod.mk.injEq] at h
      rw [← h.2]
      exact scoreOf_bounds cfg _ _
    · exact absurd h (by simp)

theorem scoredPairs_score {cfg : DecodeCfg} {C : Crypto}
    {cands : List (DecMode × List Nat)} :
    ∀ p ∈ scoredPairs cfg C cands, 0 ≤ p.2 ∧ p.2 ≤ 2 := by
  intro p hp
  unfold scoredPairs at hp
  rw [List.mem_flatten] at hp
  obtain ⟨l, hl, hpl⟩ := hp
  rw [List.mem_map] at hl
  obtain ⟨c, _, rfl⟩ := hl
  rw [List.mem_filterMap] at hpl
  obtain ⟨a, _, ha⟩ := hpl
  obtain ⟨df, s⟩ := p
  exact tryPair_score ha

theorem foldl_stepBest_stable :
    ∀ (ps : List (DecodedFrame × Int)) (b : Option DecodedFrame × Int),
      (∀ p ∈ ps, p.2 ≤ 2) → b.2 = 2 → ps.foldl stepBest b = b
  | [], _, _, _ => rfl
  | p :: rest, b, hps, hb => by
    rw [List.foldl_cons]
    have hstep : stepBest b p = b := by
      unfold stepBest
      rw [if_neg (by have := hps p (by simp); omega)]
    rw [hstep]
    exact foldl_stepBest_stable rest b (fun q hq => hps q (by simp [hq])) hb

theorem scanLayouts_eq_foldl (cfg : DecodeCfg) (C : Crypto) (pt : List Nat)
    (L : List (Nat × Bool)) :
    ∀ b, scanLayouts cfg C pt L b =
      (L.filterMap (fun l => tryPair cfg C pt l.1 l.2)).foldl stepBest b := by
  induction L with
  | nil => intro b; rfl
  | cons l rest ih =>
    intro b
    simp only [scanLayouts, List.filterMap_cons]
    cases htp : tryPair cfg C pt l.1 l.2 with
    | none => exact ih b
    | some p =>
      obtain ⟨df, s⟩ := p
      dsimp only
      rw [List.foldl_cons]
      by_cases hbs : b.2 < s
      · rw [if_pos hbs]
        have hstep : stepBest b (df, s) = (some df, s) := by
          unfold stepBest; rw [if_pos hbs]
        rw [hstep]
        by_cases hs2 : s = 2
        · rw [if_pos hs2]
          refine (foldl_stepBest_stable _ _ ?_ hs2).symm
          intro q hq
          rw [List.mem_filterMap] at hq
          obtain ⟨a, _, ha⟩ := hq
          obtain ⟨df2, s2⟩ := q
          exact (tryPair_score ha).2
        · rw [if_neg hs2]
          exact ih (some df, s)
      · rw [if_neg hbs]
        have hstep : stepBest b (df, s) = b := by
          unfold stepBest; rw [if_neg hbs]
        rw [hstep]
        exact ih b

theorem scanCandidates_eq_foldl (cfg : DecodeCfg) (C : Crypto) :
    ∀ (cands : List (DecMode × List Nat)) (b : Option DecodedFrame × Int),
      scanCandidates cfg C cands b = (scoredPairs cfg C cands).foldl stepBest b
  | [], _ => rfl
  | c :: rest, b => by
    simp only [scanCandidates, scoredPairs, List.map_cons, List.flatten_cons,
      List.foldl_append]
    rw [← scanLayouts_eq_foldl]
    by_cases h2 : (scanLayouts cfg C c.2 layouts b).2 = 2
    · rw [if_pos h2]
      refine (foldl_stepBest_stable _ _ ?_ h2).symm
      intro p hp
      exact (@scoredPairs_score cfg C rest p (by simpa [scoredPairs] using hp)).2
    · rw [if_neg h2]
      rw [scanCandidates_eq_foldl cfg C rest _]
      rfl

theorem foldl_stepBest_eq_firstMax :
    ∀ (ps : List (DecodedFrame × Int)) (b : Option DecodedFrame × Int),
      ps.foldl stepBest b =
        match firstMax ps with
        | none => b
        | some q => if b.2 < q.2 then (some q.1, q.2) else b
  | [], _ => rfl
  | p :: rest, b => by
    rw [List.foldl_cons, foldl_stepBest_eq_firstMax rest (stepBest b p)]
    simp only [firstMax]
    cases hfm : firstMax rest with
    | none =>
      dsimp only
      rfl
    | some q =>
      dsimp only
      by_cases h1 : p.2 < q.2
      · rw [if_pos h1]
        dsimp only
        by_cases h2 : b.2 < p.2
        · have hstep : stepBest b p = (some p.1, p.2) := by
            unfold stepBest; rw [if_pos h2]
          rw [hstep]
          dsimp only
          rw [if_pos h1, if_pos (by omega)]
        · have hstep : stepBest b p = b := by
            unfold stepBest; rw [if_neg h2]
          rw [hstep]
      · rw [if_neg h1]
        dsimp only
        by_cases h2 : b.2 < p.2
        · have hstep : stepBest b p = (some p.1, p.2) := by
            unfold stepBest; rw [if_pos h2]
          rw [hstep]
          dsimp only
          rw [if_neg h1, if_pos h2]
        · have hstep : stepBest b p = b := by
            unfold stepBest; rw [if_neg h2]
          rw [hstep]
          rw [if_neg (by omega), if_neg h2]

theorem firstMax_none_iff :
    ∀ ps : List (DecodedFrame × Int), firstMax ps = none ↔ ps = [] := by
  intro ps
  cases ps with
  | nil => simp [firstMax]
  | cons p rest =>
    simp only [firstMax]
    cases firstMax rest <;> simp
    split <;> simp

theorem firstMax_mem :
    ∀ (ps : List (DecodedFrame × Int)) (q : DecodedFrame × Int),
      firstMax ps = some q → q ∈ ps
  | [], _, h => by simp [firstMax] at h
  | p :: rest, q, h => by
    simp only [firstMax] at h
    cases hfm : firstMax rest with
    | none =>
      rw [hfm] at h
      dsimp only at h
      rw [Option.some.injEq] at h
      simp [← h]
    | some r =>
      rw [hfm] at h
      dsimp only at h
      by_cases h1 : p.2 < r.2
      · rw [if_pos h1, Option.some.injEq] at h
        rw [← h]
        exact List.mem_cons_of_mem _ (firstMax_mem rest r hfm)
      · rw [if_neg h1, Option.some.injEq] at h
        simp [← h]

theorem firstMax_is_max :
    ∀ (ps : List (DecodedFrame × Int)) (q : DecodedFrame × Int),
      firstMax ps = some q → ∀ p ∈ ps, p.2 ≤ q.2
  | [], _, h => by simp [firstMax] at h
  | p :: rest, q, h => by
    intro x hx
    simp only [firstMax] at h
    cases hfm : firstMax rest with
    | none =>
      rw [hfm] at h
      dsimp only at h
      rw [Option.some.injEq] at h
      have hrest : rest = [] := (firstMax_none_iff rest).mp hfm
      subst hrest
      rw [List.mem_singleton] at hx
      subst hx
      rw [← h]
    | some r =>
      rw [hfm] at h
      dsimp only at h
      by_cases h1 : p.2 < r.2
      · rw [if_pos h1, Option.some.injEq] at h
        rw [← h]
        rcases List.mem_cons.mp hx with rfl | hx2
        · omega
        · exact firstMax_is_max rest r hfm x hx2
      · rw [if_neg h1, Option.some.injEq] at h
        rw [← h]
        rcases List.mem_cons.mp hx with rfl | hx2
        · omega
        · have := firstMax_is_max rest r hfm x hx2
          omega

theorem firstMax_first :
    ∀ (ps : List (DecodedFrame × Int)) (q : DecodedFrame × Int),
      firstMax ps = some q →
      ∃ l₁ l₂, ps = l₁ ++ q :: l₂ ∧ ∀ p ∈ l₁, p.2 < q.2
  | [], _, h => by simp [firstMax] at h
  | p :: rest, q, h => by
    simp only [firstMax] at h
    cases hfm : firstMax rest with
    | none =>
      rw [hfm] at h
      dsimp only at h
      rw [Option.some.injEq] at h
      subst h
      exact ⟨[], rest, rfl, by simp⟩
    | some r =>
      rw [hfm] at h
      dsimp only at h
      by_cases h1 : p.2 < r.2
      · rw [if_pos h1, Option.some.injEq] at h
        rw [← h]
        obtain ⟨l₁, l₂, hps, hlt⟩ := firstMax_first rest r hfm
        refine ⟨p :: l₁, l₂, by rw [hps]; rfl, ?_⟩
        intro x hx
        rcases List.mem_cons.mp hx with rfl | hx2
        · exact h1
        · exact hlt x hx2
      · rw [if_neg h1, Option.some.injEq] at h
        rw [← h]
        exact ⟨[], rest, rfl, by simp⟩

/-- The code-side scan equals the specification-side first-maximum
selection (shared by the claims about the scorer and the final outcome). -/
theorem scan_eq_firstMax (cfg : DecodeCfg) (C : Crypto) (ct : List Nat) :
    scanCandidates cfg C (buildCandidates cfg C ct) (none, -1) =
      match firstMax (scoredPairs cfg C (buildCandidates cfg C ct)) with
      | none => (none, -1)
      | some q => (some q.1, q.2) := by
  rw [scanCandidates_eq_foldl cfg C (buildCandidates cfg C ct) (none, -1),
    foldl_stepBest_eq_firstMax (scoredPairs cfg C (buildCandidates cfg C ct)) (none, -1)]
  cases hfm : firstMax (scoredPairs cfg C (buildCandidates cfg C ct)) with
  | none => rfl
  | some q =>
    have hq := (scoredPairs_score q (firstMax_mem _ q hfm)).1
    show (if (-1 : Int) < q.2 then ((some q.1 : Option DecodedFrame), q.2)
      else (none, -1)) = (some q.1, q.2)
    rw [if_pos (show (-1 : Int) < q.2 by omega)]

/-- Claim C2: the code's scan over candidates and layouts returns exactly
the first pair attaining the maximal score (so a score-2 result always wins
over a score-1 result regardless of scan order, and the early exit at score
2 never changes the outcome); the returned score dominates the score of
every parsed pair; and `firstMax` really selects the first occurrence of
the maximum under the fixed candidate/layout order. -/
theorem claim_C2 (cfg : DecodeCfg) (C : Crypto) (ct : List Nat) :
    (scanCandidates cfg C (buildCandidates cfg C ct) (none, -1) =
      match firstMax (scoredPairs cfg C (buildCandidates cfg C ct)) with
      | none => (none, -1)
      | some q => (some q.1, q.2)) ∧
    (∀ p ∈ scoredPairs cfg C (buildCandidates cfg C ct),
      p.2 ≤ (scanCandidates cfg C (buildCandidates cfg C ct) (none, -1)).2) ∧
    (∀ q, firstMax (scoredPairs cfg C (buildCandidates cfg C ct)) = some q →
      ∃ l₁ l₂, scoredPairs cfg C (buildCandidates cfg C ct) = l₁ ++ q :: l₂ ∧
        ∀ p ∈ l₁, p.2 < q.2) := by
  have hmain := scan_eq_firstMax cfg C ct
  refine ⟨hmain, ?_, fun q h => firstMax_first _ q h⟩
  intro p hp
  rw [hmain]
  cases hfm : firstMax (scoredPairs cfg C (buildCandidates cfg C ct)) with
  | none =>
    rw [(firstMax_none_iff _).mp hfm] at hp
    simp at hp
  | some q =>
    dsimp only
    exact firstMax_is_max _ q hfm p hp

/-- All environment flags off: the default decode configuration. -/
def cfg0 : DecodeCfg := ⟨false, false, false⟩

/-- A concrete crypto instance: identity block cipher, failing HMAC oracle,
empty sign token. -/
def cryptoEmptyTok : Crypto := ⟨fun b => b, fun _ => none, true⟩

/-- 48 ciphertext bytes that decrypt (under the identity block cipher) to a
PKCS7-padded plaintext of 43 zero bytes. -/
def ct48 : List Nat := List.replicate 43 0 ++ List.replicate 5 5

/-- Claim C2, witness: maximality of the returned score applied at a
concrete configuration, crypto instance, ciphertext and parsed pair. -/
theorem claim_C2_witness :
    ((⟨{ raw_payload := List.replicate 11 0, message_type := 0,
         data_content := .hexBlob [], new_buffer_response := none }, 0⟩ :
       DecodedFrame × Int)).2 ≤
      (scanCandidates cfg0 cryptoEmptyTok
        (buildCandidates cfg0 cryptoEmptyTok ct48) (none, -1)).2 :=
  (claim_C2 cfg0 cryptoEmptyTok ct48).2.1 _ (by decide)

/-- Claim C3: `decode_frame`'s final outcome — no candidate decrypts → error
"no decrypt candidates"; candidates but no parsed pair → error "no valid
decode candidates"; best score ≥ 1 → the best frame; best score 0 → the best
frame if the global allow-mismatch flag is set, otherwise error
"hmac_mismatch". -/
theorem claim_C3 (cfg : DecodeCfg) (C : Crypto) (ct : List Nat) :
    (buildCandidates cfg C ct = [] →
      decode_frame cfg C ct = Except.error "no decrypt candidates") ∧
    (buildCandidates cfg C ct ≠ [] →
      firstMax (scoredPairs cfg C (buildCandidates cfg C ct)) = none →
      decode_frame cfg C ct = Except.error "no valid decode candidates") ∧
    (∀ df s, buildCandidates cfg C ct ≠ [] →
      firstMax (scoredPairs cfg C (buildCandidates cfg C ct)) = some (df, s) →
      1 ≤ s → decode_frame cfg C ct = Except.ok df) ∧
    (∀ df, buildCandidates cfg C ct ≠ [] →
      firstMax (scoredPairs cfg C (buildCandidates cfg C ct)) = some (df, 0) →
      decode_frame cfg C ct =
        if cfg.allow_hmac_mismatch then Except.ok df
        else Except.error "hmac_mismatch") := by
  have hmain := scan_eq_firstMax cfg C ct
  refine ⟨?_, ?_, ?_, ?_⟩
  · intro hempty
    unfold decode_frame
    rw [if_pos (by simp [hempty])]
  · intro hne hfm
    unfold decode_frame
    rw [if_neg (by simpa [List.isEmpty_iff] using hne)]
    rw [hmain, hfm]
  · intro df s hne hfm hs
    unfold decode_frame
    rw [if_neg (by simpa [List.isEmpty_iff] using hne)]
    rw [hmain, hfm]
    dsimp only
    rw [if_pos hs]
  · intro df hne hfm
    unfold decode_frame
    rw [if_neg (by simpa [List.isEmpty_iff] using hne)]
    rw [hmain, hfm]
    dsimp only
    rw [if_neg (by omega)]

/-- Claim C3, witness: the "no decrypt candidates" outcome applied at the
concrete crypto instance and the empty ciphertext (whose primary ECB
decrypt fails on empty-input unpadding, with fallback and CBC disabled). -/
theorem claim_C3_witness :
    decode_frame cfg0 cryptoEmptyTok [] = Except.error "no decrypt candidates" :=
  (claim_C3 cfg0 cryptoEmptyTok []).1 (by decide)

theorem mem_optCand {m m' : DecMode} {pt : List Nat} {o : Option (List Nat)} :
    (m', pt) ∈ optCand m o ↔ m' = m ∧ o = some pt := by
  cases o with
  | none => simp [optCand]
  | some x =>
    simp only [optCand, List.mem_singleton, Prod.mk.injEq, Option.some.injEq]
    constructor
    · rintro ⟨rfl, rfl⟩; exact ⟨rfl, rfl⟩
    · rintro ⟨rfl, rfl⟩; exact ⟨rfl, rfl⟩

/-- The fallback-enabled decode configuration. -/
def cfgFb : DecodeCfg := ⟨true, false, false⟩

/-- 16 ciphertext bytes that decrypt (under the identity block cipher) to a
full block of PKCS7 padding, so both the primary ECB+PKCS7 mode and the
ECB-raw mode succeed. -/
def ct16pad : List Nat := List.replicate 16 16

/-- 16 zero ciphertext bytes: the primary ECB+PKCS7 mode fails (pad byte 0)
while ECB-raw succeeds. -/
def ct16zeros : List Nat := List.replicate 16 0

/-- Claim C4, counterexample: with the fallback flag enabled and a
ciphertext on which the "ECB, no-unpad" mode succeeds, the candidate set
contains no ECB-raw candidate because the primary ECB+PKCS7 mode also
succeeded — the modes are not attempted independently. -/
theorem claim_C4_counterexample :
    cfgFb.allow_fallback = true ∧
    aes_ecb_decrypt_no_unpad cryptoEmptyTok ct16pad = some (List.replicate 16 16) ∧
    buildCandidates cfgFb cryptoEmptyTok ct16pad = [(DecMode.ecbPkcs7, [])] := by
  refine ⟨rfl, by decide, by decide⟩

/-- Claim C4, amended: membership in the candidate set, mode by mode — every
attempted mode that succeeds contributes exactly one candidate, the four CBC
modes (when enabled) are attempted independently of each other and of the
ECB outcomes, but the "ECB, no-unpad" mode contributes a candidate exactly
when the primary ECB+PKCS7 mode fails, the fallback flag is set, and the raw
decrypt succeeds — never when the primary mode succeeded. -/
theorem claim_C4 (cfg : DecodeCfg) (C : Crypto) (ct pt : List Nat) :
    ((DecMode.ecbPkcs7, pt) ∈ buildCandidates cfg C ct ↔
      aes_ecb_decrypt C ct = some pt) ∧
    ((DecMode.ecbRaw, pt) ∈ buildCandidates cfg C ct ↔
      aes_ecb_decrypt C ct = none ∧ cfg.allow_fallback = true ∧
        aes_ecb_decrypt_no_unpad C ct = some pt) ∧
    ((DecMode.cbcPkcs7IvCt, pt) ∈ buildCandidates cfg C ct ↔
      cfg.try_cbc = true ∧ aes_cbc_decrypt C ct true true = some pt) ∧
    ((DecMode.cbcPkcs7IvZero, pt) ∈ buildCandidates cfg C ct ↔
      cfg.try_cbc = true ∧ aes_cbc_decrypt C ct false true = some pt) ∧
    ((DecMode.cbcRawIvCt, pt) ∈ buildCandidates cfg C ct ↔
      cfg.try_cbc = true ∧ aes_cbc_decrypt C ct true false = some pt) ∧
    ((DecMode.cbcRawIvZero, pt) ∈ buildCandidates cfg C ct ↔
      cfg.try_cbc = true ∧ aes_cbc_decrypt C ct false false = some pt) := by
  unfold buildCandidates
  cases hecb : aes_ecb_decrypt C ct <;>
    cases hfb : cfg.allow_fallback <;>
      cases hcbc : cfg.try_cbc <;>
        simp [mem_optCand, List.mem_append, eq_comm]

/-- Claim C4, witness: the amended ECB-raw membership condition applied to
the concrete all-zero ciphertext under the fallback configuration. -/
theorem claim_C4_witness :
    (DecMode.ecbRaw, List.replicate 16 0) ∈
      buildCandidates cfgFb cryptoEmptyTok ct16zeros :=
  (claim_C4 cfgFb cryptoEmptyTok ct16zeros (List.replicate 16 0)).2.1.mpr
    ⟨by decide, rfl, by decide⟩

theorem tryPair_hmac_irrel (cfg : DecodeCfg) (d : List Nat → List Nat)
    (h1 h2 : List Nat → Option (List Nat)) (pt : List Nat) (sl : Nat) (sf : Bool) :
    tryPair cfg ⟨d, h1, true⟩ pt sl sf = tryPair cfg ⟨d, h2, true⟩ pt sl sf := rfl

theorem scanLayouts_hmac_irrel (cfg : DecodeCfg) (d : List Nat → List Nat)
    (h1 h2 : List Nat → Option (List Nat)) (pt : List Nat) :
    ∀ (L : List (Nat × Bool)) (b : Option DecodedFrame × Int),
      scanLayouts cfg ⟨d, h1, true⟩ pt L b = scanLayouts cfg ⟨d, h2, true⟩ pt L b
  | [], _ => rfl
  | l :: rest, b => by
    simp only [scanLayouts]
    rw [← tryPair_hmac_irrel cfg d h1 h2 pt l.1 l.2]
    split
    · exact scanLayouts_hmac_irrel cfg d h1 h2 pt rest b
    · split_ifs
      · rfl
      · exact scanLayouts_hmac_irrel cfg d h1 h2 pt rest _
      · exact scanLayouts_hmac_irrel cfg d h1 h2 pt rest b

theorem scanCandidates_hmac_irrel (cfg : DecodeCfg) (d : List Nat → List Nat)
    (h1 h2 : List Nat → Option (List Nat)) :
    ∀ (cands : List (DecMode × List Nat)) (b : Option DecodedFrame × Int),
      scanCandidates cfg ⟨d, h1, true⟩ cands b =
        scanCandidates cfg ⟨d, h2, true⟩ cands b
  | [], _ => rfl
  | c :: rest, b => by
    simp only [scanCandidates]
    rw [← scanLayouts_hmac_irrel cfg d h1 h2 c.2 layouts b]
    split_ifs
    · rfl
    · exact scanCandidates_hmac_irrel cfg d h1 h2 rest _

theorem scoreOf_false_le_one (cfg : DecodeCfg) (v : Bool) :
    scoreOf cfg false v ≤ 1 := by
  unfold scoreOf
  split_ifs <;> simp_all

theorem tryPair_score_tokenEmpty {cfg : DecodeCfg} {C : Crypto} {pt : List Nat}
    {sl : Nat} {sf : Bool} {df : DecodedFrame} {s : Int}
    (htok : C.tokenEmpty = true) (h : tryPair cfg C pt sl sf = some (df, s)) :
    s ≤ 1 := by
  simp only [tryPair, htok, if_true] at h
  split at h
  · exact absurd h (by simp)
  · split at h
    · rw [Option.some.injEq, Prod.mk.injEq] at h
      rw [← h.2]
      exact scoreOf_false_le_one cfg _
    · exact absurd h (by simp)

/-- Claim C5, counterexample: with an empty sign token, a ciphertext that
decrypts and parses (so at least one scored pair exists) is still rejected
by `decode_frame` with the `hmac_mismatch` error when the allow-mismatch
flag is off — decoding does fail because of signature checking. -/
theorem claim_C5_counterexample :
    cryptoEmptyTok.tokenEmpty = true ∧
    scoredPairs cfg0 cryptoEmptyTok (buildCandidates cfg0 cryptoEmptyTok ct48) ≠ [] ∧
    decode_frame cfg0 cryptoEmptyTok ct48 = Except.error "hmac_mismatch" := by
  refine ⟨rfl, by decide, by rfl⟩

/-- Claim C5, amended: an empty sign token skips HMAC computation entirely —
the decode result does not depend on the HMAC oracle — and every parsed
pairing is treated as unverified (its score never exceeds 1, so it can never
reach the verified score 2); final acceptance may however still reject with
`hmac_mismatch` when the best score is 0 and the allow-mismatch flag is
unset. -/
theorem claim_C5 (cfg : DecodeCfg) (d : List Nat → List Nat)
    (h1 h2 : List Nat → Option (List Nat)) (ct : List Nat) :
    decode_frame cfg ⟨d, h1, true⟩ ct = decode_frame cfg ⟨d, h2, true⟩ ct ∧
    ∀ p ∈ scoredPairs cfg ⟨d, h1, true⟩ (buildCandidates cfg ⟨d, h1, true⟩ ct),
      p.2 ≤ 1 := by
  constructor
  · unfold decode_frame
    rw [show buildCandidates cfg ⟨d, h1, true⟩ ct =
        buildCandidates cfg ⟨d, h2, true⟩ ct from rfl]
    rw [scanCandidates_hmac_irrel cfg d h1 h2]
  · intro p hp
    unfold scoredPairs at hp
    rw [List.mem_flatten] at hp
    obtain ⟨l, hl, hpl⟩ := hp
    rw [List.mem_map] at hl
    obtain ⟨c, _, rfl⟩ := hl
    rw [List.mem_filterMap] at hpl
    obtain ⟨a, _, ha⟩ := hpl
    obtain ⟨df, s⟩ := p
    exact tryPair_score_tokenEmpty rfl ha

/-- Claim C5, witness: independence of the HMAC oracle and the score bound,
both applied at concrete instances. -/
theorem claim_C5_witness :
    decode_frame cfg0 ⟨fun b => b, fun _ => none, true⟩ ct48 =
      decode_frame cfg0 ⟨fun b => b, fun _ => some (List.replicate 32 1), true⟩ ct48 ∧
    ((⟨{ raw_payload := List.replicate 11 0, message_type := 0,
         data_content := .hexBlob [], new_buffer_response := none }, 0⟩ :
       DecodedFrame × Int)).2 ≤ 1 :=
  ⟨(claim_C5 cfg0 (fun b => b) (fun _ => none)
      (fun _ => some (List.replicate 32 1)) ct48).1,
   (claim_C5 cfg0 (fun b => b) (fun _ => none) (fun _ => none) ct48).2 _ (by decide)⟩

/-- A beacon entry of the `uwb_update` JSON: `major`/`minor` are kept as the
byte slices whose hex encodings the JSON carries, `beaconId` is their
concatenation (major hex ‖ minor hex), `distance` is big-endian 16-bit,
`battery` a single byte. -/
structure Beacon where
  major : List Nat
  minor : List Nat
  beaconId : List Nat
  distance : Nat
  battery : Nat
deriving DecidableEq

/-- The payload of the `uwb_update` JSON produced by `as_uwb_update`. -/
structure UwbUpdate where
  deviceIdHex : List Nat
  deviceIdDecimal : Nat
  numberOfBeacons : Nat
  motion : String
  beacons : List Beacon
  requestTimestamp : Nat
deriving DecidableEq

/-- One 7-byte entry of the remaining-beacons blob, read at the head of
`rem`: major (2) ‖ minor (2) ‖ distance (2, big-endian) ‖ battery (1). -/
def remBeaconAt (rem : List Nat) : Beacon :=
  { major := rem.take 2
  , minor := (rem.drop 2).take 2
  , beaconId := rem.take 2 ++ (rem.drop 2).take 2
  , distance := ((rem.getD 4 0) <<< 8) ||| rem.getD 5 0
  , battery := rem.getD 6 0 }

/-- The `while i + 7 <= rem.len() && (beacons.len() as u8) < num_beacons`
loop of `as_uwb_update`, fuelled by the blob length (each iteration
consumes 7 ≥ 1 bytes, so the fuel never runs out before the loop guard
fails).  The `% 256` is the Rust `as u8` cast of the running count. -/
def collectRemainingAux (num_beacons : Nat) :
    Nat → List Beacon → List Nat → List Beacon
  | 0, acc, _ => acc
  | fuel + 1, acc, rem =>
    if 7 ≤ rem.length ∧ acc.length % 256 < num_beacons then
      collectRemainingAux num_beacons fuel (acc ++ [remBeaconAt rem]) (rem.drop 7)
    else acc

def collectRemaining (num_beacons : Nat) (acc : List Beacon)
    (rem : List Nat) : List Beacon :=
  collectRemainingAux num_beacons rem.length acc rem

/-- The named first beacon of a structured type-0x05 content: major at
[6,8), minor at [8,10), distance at [10,12) big-endian, battery at byte 12
(0 if absent). -/
def firstBeaconOf (full : List Nat) : Beacon :=
  { major := (full.drop 6).take 2
  , minor := (full.drop 8).take 2
  , beaconId := (full.drop 6).take 2 ++ (full.drop 8).take 2
  , distance := ((((full.drop 10).take 2).getD 0 0) <<< 8) |||
      ((full.drop 10).take 2).getD 1 0
  , battery := if ((full.drop 12).take 1).isEmpty then 0
      else ((full.drop 12).take 1).getD 0 0 }

/-- Function `as_uwb_update` from lorawan_codec.rs: project a decoded type-0x05
frame into the `uwb_update` record.  The hex fields of the JSON `Data
Content` node round-trip through `hex::encode`/`Vec::from_hex`, so they are
read back here as the corresponding byte slices; for any non-`mt05`
content shape the required `Number of Beacons` / `Device ID` lookups fail
and the source returns `None`. -/
def as_uwb_update (df : DecodedFrame) (ts_field : Nat) : Option UwbUpdate :=
  if df.message_type ≠ 0x05 then none
  else
    match df.data_content with
    | DataContent.mt05 full =>
      if (full.take 4).length < 4 then none
      else if ((full.drop 10).take 2).length < 2 then none
      else
        some { deviceIdHex := full.take 4
             , deviceIdDecimal :=
                 (((full.take 4).getD 0 0) <<< 24) |||
                 (((full.take 4).getD 1 0) <<< 16) |||
                 (((full.take 4).getD 2 0) <<< 8) ||| (full.take 4).getD 3 0
             , numberOfBeacons := full.getD 4 0
             , motion := if full.getD 5 0 = 1 then "Movement Detected"
                 else "No Movement"
             , beacons := collectRemaining (full.getD 4 0) [firstBeaconOf full]
                 (full.drop 13)
             , requestTimestamp := ts_field }
    | _ => none

/-- Reduction of `as_uwb_update` on a literal type-0x05 frame with
structured content. -/
theorem as_uwb_update_mt05 (raw full : List Nat) (nbr : Option (List Nat))
    (ts : Nat) :
    as_uwb_update ⟨raw, 0x05, .mt05 full, nbr⟩ ts =
      (if (full.take 4).length < 4 then none
       else if ((full.drop 10).take 2).length < 2 then none
       else some { deviceIdHex := full.take 4
                 , deviceIdDecimal := (((full.take 4).getD 0 0) <<< 24) |||
                     (((full.take 4).getD 1 0) <<< 16) |||
                     (((full.take 4).getD 2 0) <<< 8) ||| (full.take 4).getD 3 0
                 , numberOfBeacons := full.getD 4 0
                 , motion := if full.getD 5 0 = 1 then "Movement Detected"
                     else "No Movement"
                 , beacons := collectRemaining (full.getD 4 0) [firstBeaconOf full]
                     (full.drop 13)
                 , requestTimestamp := ts }) := rfl

/-- Specification-side view of the remaining-beacons blob: one beacon per
complete 7-byte step. -/
def chunkBeacons (rem : List Nat) : List Beacon :=
  (List.range (rem.length / 7)).map (fun i => remBeaconAt (rem.drop (7 * i)))

theorem chunkBeacons_cons {rem : List Nat} (h : 7 ≤ rem.length) :
    chunkBeacons rem = remBeaconAt rem :: chunkBeacons (rem.drop 7) := by
  unfold chunkBeacons
  have hlen : rem.length / 7 = (rem.drop 7).length / 7 + 1 := by
    rw [List.length_drop]
    omega
  rw [hlen, List.range_succ_eq_map, List.map_cons, List.map_map]
  refine congrArg₂ List.cons ?_ ?_
  · norm_num
  · apply List.map_congr_left
    intro i _
    show remBeaconAt (rem.drop (7 * (i + 1))) = remBeaconAt ((rem.drop 7).drop (7 * i))
    rw [List.drop_drop, show 7 + 7 * i = 7 * (i + 1) from by ring]

theorem chunkBeacons_nil {rem : List Nat} (h : rem.length < 7) :
    chunkBeacons rem = [] := by
  unfold chunkBeacons
  rw [Nat.div_eq_of_lt h]
  rfl

theorem collectRemainingAux_eq (n : Nat) :
    ∀ (fuel : Nat) (rem : List Nat) (acc : List Beacon),
      rem.length ≤ fuel → acc.length ≤ 255 → n ≤ 255 →
      collectRemainingAux n fuel acc rem =
        acc ++ (chunkBeacons rem).take (n - acc.length)
  | 0, rem, acc, hf, _, _ => by
    have hrem : rem = [] := List.length_eq_zero.mp (by omega)
    subst hrem
    simp [collectRemainingAux, chunkBeacons]
  | fuel + 1, rem, acc, hf, hacc, hn => by
    simp only [collectRemainingAux]
    by_cases hcond : 7 ≤ rem.length ∧ acc.length % 256 < n
    · rw [if_pos hcond]
      obtain ⟨h7, hlt⟩ := hcond
      rw [Nat.mod_eq_of_lt (by omega)] at hlt
      rw [collectRemainingAux_eq n fuel (rem.drop 7) (acc ++ [remBeaconAt rem])
        (by rw [List.length_drop]; omega)
        (by rw [List.length_append]; simp; omega) hn]
      rw [chunkBeacons_cons h7]
      obtain ⟨m, hm⟩ : ∃ m, n - acc.length = m + 1 := ⟨n - acc.length - 1, by omega⟩
      rw [hm, List.take_succ_cons, List.append_assoc, List.singleton_append]
      congr 2
      rw [List.length_append]
      simp
      omega
    · rw [if_neg hcond]
      rcases Nat.lt_or_ge rem.length 7 with h7 | h7
      · rw [chunkBeacons_nil h7]
        simp
      · have hge : n ≤ acc.length := by
          by_contra hcon
          exact hcond ⟨h7, by rw [Nat.mod_eq_of_lt (by omega)]; omega⟩
        have hz : n - acc.length = 0 := by omega
        rw [hz]
        simp

theorem collectRemainingAux_append (n : Nat) :
    ∀ (fuel : Nat) (rem : List Nat) (acc : List Beacon),
      ∃ rest, collectRemainingAux n fuel acc rem = acc ++ rest
  | 0, _, acc => ⟨[], by simp [collectRemainingAux]⟩
  | fuel + 1, rem, acc => by
    simp only [collectRemainingAux]
    by_cases hcond : 7 ≤ rem.length ∧ acc.length % 256 < n
    · rw [if_pos hcond]
      obtain ⟨rest, hr⟩ :=
        collectRemainingAux_append n fuel (rem.drop 7) (acc ++ [remBeaconAt rem])
      exact ⟨remBeaconAt rem :: rest, by rw [hr]; simp⟩
    · rw [if_neg hcond]
      exact ⟨[], by simp⟩

/-- Claim C9: for a decoded location frame with full structured content
(content length ≥ 13, beacon-count byte a `u8`), the beacon list is the
named first beacon followed by one beacon per complete 7-byte step of the
remaining blob, capped by the declared count; its length is
`1 + min (recoverable entries) (declared count − 1)`, so a declared count
exceeding the recoverable entries yields exactly the recoverable beacons. -/
theorem claim_C9 (raw full : List Nat) (nbr : Option (List Nat)) (ts : Nat)
    (hlen : 13 ≤ full.length) (hnum : full.getD 4 0 < 256) :
    ∃ u, as_uwb_update ⟨raw, 0x05, .mt05 full, nbr⟩ ts = some u ∧
      u.beacons = firstBeaconOf full ::
        (chunkBeacons (full.drop 13)).take (full.getD 4 0 - 1) ∧
      u.beacons.length = 1 + min ((full.drop 13).length / 7) (full.getD 4 0 - 1) := by
  have hbeacons : collectRemaining (full.getD 4 0) [firstBeaconOf full] (full.drop 13) =
      firstBeaconOf full ::
        (chunkBeacons (full.drop 13)).take (full.getD 4 0 - 1) := by
    unfold collectRemaining
    rw [collectRemainingAux_eq (full.getD 4 0) (full.drop 13).length (full.drop 13)
      [firstBeaconOf full] (le_refl _) (by simp) (by omega)]
    simp
  rw [as_uwb_update_mt05]
  rw [if_neg (by rw [List.length_take]; omega),
    if_neg (by rw [List.length_take, List.length_drop]; omega)]
  refine ⟨_, rfl, hbeacons, ?_⟩
  rw [hbeacons]
  rw [List.length_cons, List.length_take]
  unfold chunkBeacons
  rw [List.length_map, List.length_range]
  omega

/-- A concrete structured type-0x05 content (20 bytes): device id A0BA3E29,
beacon count 2, motion 1, named beacon 0200/00B3/100cm/100, one 7-byte
remaining beacon 0200/0053/200cm/90. -/
def locContent20 : List Nat :=
  [0xA0, 0xBA, 0x3E, 0x29, 0x02, 0x01,
   0x02, 0x00, 0x00, 0xB3, 0x00, 0x64, 0x64,
   0x02, 0x00, 0x00, 0x53, 0x00, 0xC8, 0x5A]

/-- Claim C9, witness: the theorem applied to the concrete 20-byte location
content. -/
theorem claim_C9_witness :
    ∃ u, as_uwb_update ⟨[], 0x05, .mt05 locContent20, none⟩ 0 = some u ∧
      u.beacons = firstBeaconOf locContent20 ::
        (chunkBeacons (locContent20.drop 13)).take (locContent20.getD 4 0 - 1) ∧
      u.beacons.length =
        1 + min ((locContent20.drop 13).length / 7) (locContent20.getD 4 0 - 1) :=
  claim_C9 [] locContent20 none 0 (by decide) (by decide)

/-- Claim C10: the projected beacon list always starts with the named first
beacon, so it has length at least 1 even when the declared beacon-count
field is 0 — the declared count caps only the beacons appended from the
remaining-beacons blob. -/
theorem claim_C10 (raw full : List Nat) (nbr : Option (List Nat)) (ts : Nat)
    (hlen : 13 ≤ full.length) :
    ∃ u, as_uwb_update ⟨raw, 0x05, .mt05 full, nbr⟩ ts = some u ∧
      u.beacons.head? = some (firstBeaconOf full) ∧ 1 ≤ u.beacons.length ∧
      u.numberOfBeacons = full.getD 4 0 := by
  rw [as_uwb_update_mt05]
  rw [if_neg (by rw [List.length_take]; omega),
    if_neg (by rw [List.length_take, List.length_drop]; omega)]
  refine ⟨_, rfl, ?_, ?_, rfl⟩
  · obtain ⟨rest, hr⟩ := collectRemainingAux_append (full.getD 4 0)
      (full.drop 13).length (full.drop 13) [firstBeaconOf full]
    unfold collectRemaining
    rw [hr]
    simp
  · obtain ⟨rest, hr⟩ := collectRemainingAux_append (full.getD 4 0)
      (full.drop 13).length (full.drop 13) [firstBeaconOf full]
    unfold collectRemaining
    rw [hr]
    simp

/-- A 13-byte structured type-0x05 content whose declared beacon count is
0. -/
def locContent13 : List Nat :=
  [0xDE, 0xAD, 0xBE, 0xEF, 0x00, 0x00,
   0x01, 0x02, 0x03, 0x04, 0x00, 0x0A, 0x32]

/-- Claim C10, witness: the theorem applied to a concrete location content
with declared beacon count 0. -/
theorem claim_C10_witness :
    ∃ u, as_uwb_update ⟨[], 0x05, .mt05 locContent13, none⟩ 7 = some u ∧
      u.beacons.head? = some (firstBeaconOf locContent13) ∧
      1 ≤ u.beacons.length ∧ u.numberOfBeacons = locContent13.getD 4 0 :=
  claim_C10 [] locContent13 none 7 (by decide)

end LorawanCodec
